import Mathlib

/-!
Verification development for the klave-rust-postgre-template application
(src/apps/klave-rust-postgre-template/src/database.rs and lib.rs).

The Rust code is shallowly embedded: the external collaborators (ledger
store, SQL service, crypto service, identity service) appear as an
environment of deterministic functions plus an explicit state record that
carries the ledger contents, the named key store, the randomness tape and
a log of SQL collaborator calls.  Stored records are modelled at the level
of their parsed shape, folding the JSON transport layer (out of scope per
the specification) into a tagged record type.

The repository modules crypto.rs and utils.rs are referenced by
database.rs but are not part of the sources; the handful of functions
taken from them are modelled from the specification and are marked with a
doc comment starting with Modelled from the spec.
-/

/-- Model of a serde_json scalar cell value as it appears in a resultset
row (section 9 of the spec describes cells as Null, Boolean, Number or
Text). -/
inductive Value where
  | null : Value
  | bool (b : Bool) : Value
  | num (n : Int) : Value
  | str (s : String) : Value
deriving DecidableEq, Repr

/-- struct DBInputDetails from database.rs. -/
structure DBInputDetails where
  host : String
  dbname : String
  user : String
  password : String
deriving DecidableEq, Repr

/-- struct DBTable from database.rs. -/
structure DBTable where
  database_id : String
  table : String
  columns : List String
  primary_key : String
deriving DecidableEq, Repr

/-- struct ReadEncryptedTableInput from database.rs. -/
structure ReadEncryptedTableInput where
  database_id : String
  table : String
  encrypted_column : String
  values : List String
deriving DecidableEq, Repr

/-- struct PgField from database.rs. -/
structure PgField where
  name : String
  field_type : Nat
  size : Nat
  scale : Nat
  nullable : Bool
  description : Option String
deriving DecidableEq, Repr

/-- struct PostGreResponse from database.rs, monomorphised at the
Vec of Vec of Value instantiation used by the encryption engine. -/
structure PostGreResponse where
  fields : List PgField
  resultset : List (List Value)
deriving DecidableEq, Repr

/-- struct Client from database.rs. -/
structure Client where
  database_id : String
  db_input_details : DBInputDetails
  opaque_handle : String
  client_id : String
  master_key_name : Option String
deriving DecidableEq, Repr

/-- struct Clients from database.rs: the registry of profile ids. -/
structure Clients where
  clients : List String
deriving DecidableEq, Repr

/-- Parsed shape of a record persisted in the DatabaseClientTable ledger
table: either the aggregate registry list (stored under the fixed key
ALL), a single client profile, or bytes that deserialize as neither. -/
inductive StoredRecord where
  | clientsRec (cs : List String) : StoredRecord
  | clientRec (c : Client) : StoredRecord
  | corrupt : StoredRecord
deriving DecidableEq, Repr

/-- A call made to the SQL collaborator (klave::sql). -/
inductive SqlCall where
  | openC (uri : String) : SqlCall
  | queryC (handle sql : String) : SqlCall
  | execC (handle sql : String) : SqlCall
deriving DecidableEq, Repr

/-- True exactly on SQL execute calls, the only calls that can write. -/
def SqlCall.isExec : SqlCall → Bool
  | .execC _ _ => true
  | _ => false

/-- Mutable world state threaded through the embedded operations: the
ledger table DatabaseClientTable, the named key store, the randomness
tape consumed by klave::crypto::random::get_random_bytes and key
generation, and the log of calls made to the SQL collaborator. -/
structure St where
  ledger : List (String × StoredRecord)
  keys : List (String × List Nat)
  rng : List (List Nat)
  sqlCalls : List SqlCall
deriving DecidableEq, Repr

/-- Read-only environment: the ambient caller identity
(utils::get_client_id via the identity collaborator) and the behaviour of
the SQL and crypto collaborators, modelled as deterministic functions. -/
structure Env where
  clientId : String
  sqlOpen : String → Except String String
  sqlQuery : String → String → Except String PostGreResponse
  sqlExec : String → String → Except String String
  hkdf : List Nat → List Nat → Except String (List Nat)
  aesEnc : List Nat → List Nat → List Nat → Except String (List Nat)

instance {ε α : Type} [DecidableEq ε] [DecidableEq α] : DecidableEq (Except ε α) := by
  intro a b
  cases a <;> cases b
  case error.error e f =>
    exact if h : e = f then isTrue (by rw [h]) else isFalse (by intro hh; cases hh; exact h rfl)
  case error.ok e x => exact isFalse (by intro hh; cases hh)
  case ok.error x e => exact isFalse (by intro hh; cases hh)
  case ok.ok x y =>
    exact if h : x = y then isTrue (by rw [h]) else isFalse (by intro hh; cases hh; exact h rfl)

/-- Byte representation of a string (one entry per character code). -/
def strBytes (s : String) : List Nat :=
  s.data.map Char.toNat

/-- Lower-case hexadecimal digit for a nibble. -/
def hexDigit (n : Nat) : Char :=
  if n < 10 then Char.ofNat (48 + n) else Char.ofNat (87 + n)

/-- Two hexadecimal digits for one byte. -/
def hexByte (b : Nat) : List Char :=
  [hexDigit (b / 16 % 16), hexDigit (b % 16)]

/-- hex::encode from the hex crate: lower-case hex string of a byte
sequence, two characters per byte. -/
def hexEncode (l : List Nat) : String :=
  String.mk (l.flatMap hexByte)

/-- Modelled from the spec: crypto::AES_GCM_IV_SIZE (crypto.rs is not
under src); section 4.4 fixes the AES-GCM nonce at 12 bytes. -/
def AES_GCM_IV_SIZE : Nat := 12

/-- Modelled from the spec: utils::get_serde_value_into_bytes (utils.rs
is not under src).  Section 4.5 serializes a cell value to canonical
bytes: the raw bytes of the text for Text cells and the textual rendering
for the other scalar variants. -/
def get_serde_value_into_bytes : Value → Except String (List Nat)
  | .str s => .ok (strBytes s)
  | .num n => .ok (strBytes (toString n))
  | .bool b => .ok (strBytes (if b then "true" else "false"))
  | .null => .ok (strBytes "null")

/-- Modelled from the spec: crypto::derive_aes_gcm_key (crypto.rs is not
under src).  Section 4.3: apply the key-derivation collaborator to the
master key with the pair (table, column) as context info. -/
def derive_aes_gcm_key (env : Env) (mk : List Nat) (table column : String) :
    Except String (List Nat) :=
  env.hkdf mk (strBytes table ++ strBytes column)

/-- Modelled from the spec: crypto::derive_iv (crypto.rs is not under
src).  Section 4.4: canonicalize the value to bytes, derive a second key
via the same KDF with (column, canonical value) as context, export its
raw bytes and take the first 12 as the AES-GCM nonce. -/
def derive_iv (env : Env) (mk : List Nat) (column : String) (v : Value) :
    Except String (List Nat) :=
  match get_serde_value_into_bytes v with
  | .error e => .error e
  | .ok canon =>
    match env.hkdf mk (strBytes column ++ canon) with
    | .error e => .error e
    | .ok raw => .ok (raw.take AES_GCM_IV_SIZE)

/-- SQL rendering of one cell value, helper for the bulk update
statement. -/
def value_to_sql_literal : Value → String
  | .null => "NULL"
  | .bool b => if b then "TRUE" else "FALSE"
  | .num n => toString n
  | .str s => String.singleton (Char.ofNat 39) ++ s ++ String.singleton (Char.ofNat 39)

/-- Modelled from the spec: utils::flatten_vec_of_vec_values_to_single_string
(utils.rs is not under src).  Section 4.5 step 4 renders the processed
rows as the VALUES rows of a values-derived temporary relation. -/
def flatten_vec_of_vec_values_to_single_string (rows : List (List Value)) : String :=
  String.intercalate ","
    (rows.map (fun row => "(" ++ String.intercalate "," (row.map value_to_sql_literal) ++ ")"))

/-- Clients::new from database.rs. -/
def Clients.new : Clients := ⟨[]⟩

/-- Clients::load from database.rs: a missing aggregate record yields a
fresh empty registry, a present record must deserialize as a registry
list. -/
def Clients.load (st : St) : Except String Clients :=
  match st.ledger.lookup "ALL" with
  | none => .ok Clients.new
  | some (StoredRecord.clientsRec cs) => .ok ⟨cs⟩
  | some _ => .error "failed to parse client list"

/-- Client::load from database.rs: fetch the record for the id,
deserialize it as a Client, then fail closed unless the ambient caller
identity equals the stored owning tenant. -/
def Client.load (env : Env) (st : St) (database_id : String) : Except String Client :=
  match st.ledger.lookup database_id with
  | none => .error "ledger key not found"
  | some (StoredRecord.clientRec c) =>
    if env.clientId = c.client_id then .ok c else .error "Client ID mismatch"
  | some _ => .error "failed to deserialize database Client"

/-- One step of the Clients::exists loop from database.rs: the candidate
id matches when its record loads under the current identity and all four
connection fields coincide. -/
def clientMatches (env : Env) (st : St) (d : DBInputDetails) (database_id : String) : Bool :=
  match Client.load env st database_id with
  | .ok c => c.db_input_details == d
  | .error _ => false

/-- Clients::exists from database.rs: first registered id whose profile
loads and matches the four connection fields, empty sentinel otherwise. -/
def Clients.exists (env : Env) (st : St) (self : Clients) (d : DBInputDetails) : String :=
  (self.clients.find? (clientMatches env st d)).getD ""

/-- Client::new from database.rs: a fresh random id (empty on randomness
failure, as in the source), the ambient caller as owning tenant, no
handle and no master key yet. -/
def Client.new (env : Env) (st : St) (d : DBInputDetails) : Client × St :=
  match st.rng with
  | bytes :: rest =>
    (⟨hexEncode bytes, d, "", env.clientId, none⟩, { st with rng := rest })
  | [] =>
    (⟨"", d, "", env.clientId, none⟩, st)

/-- Client::save_master_key from database.rs: draw a random opaque name,
generate a master key via the crypto collaborator (modelled as consuming
the randomness tape), persist it in the key store under the name, and
record the name on the profile. -/
def Client.save_master_key (c : Client) (st : St) : Except String (Client × St) :=
  match st.rng with
  | [] => .error "failed to draw master key name"
  | nameBytes :: rest =>
    match rest with
    | [] => .error "Failed to generate master key"
    | keyBytes :: rest2 =>
      let master_key_name := hexEncode nameBytes
      .ok ({ c with master_key_name := some master_key_name },
           { st with rng := rest2, keys := (master_key_name, keyBytes) :: st.keys })

/-- Client::save from database.rs: tenant check, master key creation,
then persist the serialized profile under its id. -/
def Client.save (env : Env) (c : Client) (st : St) : Except String (Client × St) :=
  if env.clientId = c.client_id then
    match Client.save_master_key c st with
    | .error e => .error e
    | .ok (c2, st2) =>
      .ok (c2, { st2 with ledger := (c2.database_id, StoredRecord.clientRec c2) :: st2.ledger })
  else .error "Client ID mismatch"

/-- Clients::save from database.rs: persist the registry list under the
fixed aggregate key ALL. -/
def Clients.save (self : Clients) (st : St) : St :=
  { st with ledger := ("ALL", StoredRecord.clientsRec self.clients) :: st.ledger }

/-- Clients::add from database.rs: return the existing id when a profile
with identical fields is found, otherwise create, persist and register a
new profile. -/
def Clients.add (env : Env) (st : St) (self : Clients) (d : DBInputDetails) :
    Except String String × Clients × St :=
  let database_id := Clients.exists env st self d
  if database_id = "" then
    match Client.new env st d with
    | (client, st1) =>
      match Client.save env client st1 with
      | .error e => (.error e, self, st1)
      | .ok (c2, st2) =>
        let self2 : Clients := ⟨self.clients ++ [c2.database_id]⟩
        (.ok c2.database_id, self2, Clients.save self2 st2)
  else
    (.ok database_id, self, st)

/-- Clients::delete from database.rs: locate the id in the registry list,
remove it, remove the persisted record and save the registry; an absent
id yields an error and no mutation. -/
def Clients.delete (st : St) (self : Clients) (database_id : String) :
    Except String Unit × Clients × St :=
  if self.clients.contains database_id then
    let self2 : Clients := ⟨self.clients.erase database_id⟩
    let st2 : St := { st with ledger := st.ledger.filter (fun p => !(p.1 == database_id)) }
    (.ok (), self2, Clients.save self2 st2)
  else
    (.error "Database ID not found", self, st)

/-- Client::connection_string from database.rs: host and dbname always,
user and password segments appended only when non-empty. -/
def Client.connection_string (c : Client) : String :=
  let conn := "host=" ++ c.db_input_details.host ++ " dbname=" ++ c.db_input_details.dbname
  let conn := if c.db_input_details.user = "" then conn else conn ++ " user=" ++ c.db_input_details.user
  if c.db_input_details.password = "" then conn else conn ++ " password=" ++ c.db_input_details.password

/-- Client::connect from database.rs: tenant check, then delegate the
connection string to the SQL connection collaborator and store the opaque
handle. -/
def Client.connect (env : Env) (c : Client) (st : St) : Except String Client × St :=
  if env.clientId = c.client_id then
    let uri := c.connection_string
    let st1 : St := { st with sqlCalls := st.sqlCalls ++ [SqlCall.openC uri] }
    match env.sqlOpen uri with
    | .ok handle => (.ok { c with opaque_handle := handle }, st1)
    | .error e => (.error e, st1)
  else (.error "Client ID mismatch", st)

/-- Client::query from database.rs: tenant check, then run the SQL query
through the collaborator on the stored handle (the JSON parsing of the
response is folded into the collaborator result). -/
def Client.query (env : Env) (c : Client) (st : St) (sql : String) :
    Except String PostGreResponse × St :=
  if env.clientId = c.client_id then
    let st1 : St := { st with sqlCalls := st.sqlCalls ++ [SqlCall.queryC c.opaque_handle sql] }
    match env.sqlQuery c.opaque_handle sql with
    | .ok r => (.ok r, st1)
    | .error e => (.error e, st1)
  else (.error "Client ID mismatch", st)

/-- Client::execute from database.rs: tenant check, then run the SQL
command through the collaborator on the stored handle. -/
def Client.execute (env : Env) (c : Client) (st : St) (sql : String) :
    Except String String × St :=
  if env.clientId = c.client_id then
    let st1 : St := { st with sqlCalls := st.sqlCalls ++ [SqlCall.execC c.opaque_handle sql] }
    match env.sqlExec c.opaque_handle sql with
    | .ok r => (.ok r, st1)
    | .error e => (.error e, st1)
  else (.error "Client ID mismatch", st)

/-- Client::get_table_properties from database.rs: schema probe via a
one-row select, returning the ordered field descriptors. -/
def Client.get_table_properties (env : Env) (c : Client) (st : St) (table_name : String) :
    Except String (List PgField) × St :=
  if env.clientId = c.client_id then
    match Client.query env c st ("SELECT * FROM " ++ table_name ++ " LIMIT 1") with
    | (.ok response, st1) => (.ok response.fields, st1)
    | (.error e, st1) => (.error e, st1)
  else (.error "Client ID mismatch", st)

/-- Client::get_columns_to_encrypt from database.rs: select the primary
key followed by the requested columns for all rows. -/
def Client.get_columns_to_encrypt (env : Env) (c : Client) (st : St)
    (primary_key_field : String) (db_table : DBTable) :
    Except String PostGreResponse × St :=
  if env.clientId = c.client_id then
    Client.query env c st
      ("SELECT " ++ primary_key_field ++ "," ++ String.intercalate "," db_table.columns
        ++ " FROM " ++ db_table.table)
  else (.error "Client ID mismatch", st)

/-- Per-cell encryption step of Client::encrypt_columns from database.rs:
canonical bytes, column key, deterministic IV, AES-GCM encryption with a
128-bit tag, then the hex encoding of IV followed by ciphertext and tag. -/
def encryptCell (env : Env) (mk : List Nat) (table column : String) (v : Value) :
    Except String Value :=
  match get_serde_value_into_bytes v with
  | .error e => .error e
  | .ok value_in_bytes =>
    match derive_aes_gcm_key env mk table column with
    | .error e => .error e
    | .ok aes_gcm_key =>
      match derive_iv env mk column v with
      | .error e => .error e
      | .ok iv =>
        match env.aesEnc aes_gcm_key iv value_in_bytes with
        | .error e => .error e
        | .ok encrypted_value => .ok (Value.str (hexEncode (iv ++ encrypted_value)))

/-- Cell loop of Client::encrypt_columns from database.rs: the cell at
index 0 (the primary key) is skipped, every other cell is encrypted with
the key and IV derived for the field name at the same index of the probed
schema; an out-of-range index models the panicking array access of the
source as an abort. -/
def processCells (env : Env) (mk : List Nat) (table : String) (fields : List PgField) :
    Nat → List Value → Except String (List Value)
  | _, [] => .ok []
  | 0, v :: rest =>
    match processCells env mk table fields 1 rest with
    | .error e => .error e
    | .ok tl => .ok (v :: tl)
  | idy + 1, v :: rest =>
    match fields.get? (idy + 1) with
    | none => .error "field index out of bounds"
    | some f =>
      match encryptCell env mk table f.name v with
      | .error e => .error e
      | .ok v2 =>
        match processCells env mk table fields (idy + 2) rest with
        | .error e => .error e
        | .ok tl => .ok (v2 :: tl)

/-- Row loop of Client::encrypt_columns from database.rs: process each
row in order, aborting the whole batch on the first failing cell. -/
def processRows (env : Env) (mk : List Nat) (table : String) (fields : List PgField) :
    List (List Value) → Except String (List (List Value))
  | [] => .ok []
  | row :: rest =>
    match processCells env mk table fields 0 row with
    | .error e => .error e
    | .ok row2 =>
      match processRows env mk table fields rest with
      | .error e => .error e
      | .ok rest2 => .ok (row2 :: rest2)

/-- Client::build_update_query from database.rs: one bulk statement with
a values-derived temporary relation joined back to the table by the first
field (the primary key). -/
def Client.build_update_query (processed_rows : List (List Value)) (fields : List PgField)
    (table : String) : Except String String :=
  if processed_rows.isEmpty then .error "No rows to update"
  else
    match fields with
    | [] => .error "field index out of bounds"
    | f0 :: _ =>
      let pk := f0.name
      let column_names := fields.map (fun f => f.name)
      let all_columns := String.intercalate "," column_names
      let q := "WITH new_values (" ++ all_columns ++ ") AS (VALUES "
      let q := q ++ flatten_vec_of_vec_values_to_single_string processed_rows
      let q := q ++ ") UPDATE " ++ table ++ " SET "
      let q := q ++ String.intercalate ", "
        (column_names.map (fun n => n ++ " = new_values." ++ n))
      let q := q ++ " FROM new_values WHERE " ++ table ++ "." ++ pk ++ " = new_values." ++ pk
      .ok q

/-- Client::update from database.rs: build the bulk update statement and
execute it; note that the source logs and swallows an execution failure,
returning success, while a failure to build the statement propagates. -/
def Client.update (env : Env) (c : Client) (st : St) (processed_rows : List (List Value))
    (fields : List PgField) (table : String) : Except String Unit × St :=
  match Client.build_update_query processed_rows fields table with
  | .error e => (.error e, st)
  | .ok q =>
    match Client.execute env c st q with
    | (_, st1) => (.ok (), st1)

/-- Client::encrypt_columns from database.rs: tenant check, schema probe,
row selection, master key load, per-cell encryption of every
non-primary-key cell, then the bulk update. -/
def Client.encrypt_columns (env : Env) (c : Client) (db_table : DBTable) (st : St) :
    Except String Unit × St :=
  if env.clientId = c.client_id then
    match Client.get_table_properties env c st db_table.table with
    | (.error e, st1) => (.error e, st1)
    | (.ok fields, st1) =>
      match Client.get_columns_to_encrypt env c st1 db_table.primary_key db_table with
      | (.error e, st2) => (.error e, st2)
      | (.ok answer, st2) =>
        match c.master_key_name with
        | none => (.error "Master key name not set", st2)
        | some master_key_name =>
          match st2.keys.lookup master_key_name with
          | none => (.error "Failed to load master key", st2)
          | some master_key =>
            match processRows env master_key db_table.table fields answer.resultset with
            | .error e => (.error e, st2)
            | .ok processed_rows =>
              Client.update env c st2 processed_rows answer.fields db_table.table
  else (.error "Client ID mismatch", st)

/-- Lookup-value encryption step of Client::build_encrypted_query from
database.rs: the plaintext is the raw bytes of the lookup string, the IV
derivation receives the string wrapped as a JSON string value. -/
def encryptLookupValue (env : Env) (mk : List Nat) (table column : String) (s : String) :
    Except String String :=
  let value_in_bytes := strBytes s
  match derive_aes_gcm_key env mk table column with
  | .error e => .error e
  | .ok aes_gcm_key =>
    match derive_iv env mk column (Value.str s) with
    | .error e => .error e
    | .ok iv =>
      match env.aesEnc aes_gcm_key iv value_in_bytes with
      | .error e => .error e
      | .ok encrypted_value => .ok (hexEncode (iv ++ encrypted_value))

/-- Value loop of Client::build_encrypted_query from database.rs. -/
def encryptLookupValues (env : Env) (mk : List Nat) (table column : String) :
    List String → Except String (List String)
  | [] => .ok []
  | s :: rest =>
    match encryptLookupValue env mk table column s with
    | .error e => .error e
    | .ok enc =>
      match encryptLookupValues env mk table column rest with
      | .error e => .error e
      | .ok rest2 => .ok (enc :: rest2)

/-- Client::build_encrypted_query from database.rs: load the master key,
encrypt every lookup value exactly as the column encryption engine does,
and emit a select filtering the column with an IN clause over the encoded
ciphertexts. -/
def Client.build_encrypted_query (env : Env) (c : Client) (st : St)
    (input : ReadEncryptedTableInput) : Except String String × St :=
  match c.master_key_name with
  | none => (.error "Master key name not set", st)
  | some master_key_name =>
    match st.keys.lookup master_key_name with
    | none => (.error "Failed to load master key", st)
    | some master_key =>
      match encryptLookupValues env master_key input.table input.encrypted_column input.values with
      | .error e => (.error e, st)
      | .ok encoded =>
        (.ok ("SELECT * FROM " ++ input.table ++ " WHERE " ++ input.encrypted_column
          ++ " in (" ++ String.intercalate "," encoded ++ ")"), st)

/-- Connection details used by the concrete scenarios below. -/
def dT : DBInputDetails := ⟨"db1", "orders", "u", "p"⟩

/-- Schema of the products example table from the source test data. -/
def fieldsT : List PgField :=
  [⟨"product_id", 3, 0, 0, true, none⟩, ⟨"name", 12, 0, 0, true, none⟩]

/-- One-row resultset for the products example table. -/
def rowsT : List (List Value) := [[Value.num 1, Value.str "Laptop"]]

/-- Concrete key-derivation collaborator: always succeeds with at least
twelve output bytes. -/
def hkdfT : List Nat → List Nat → Except String (List Nat) :=
  fun k i => .ok (List.replicate 20 3 ++ k ++ i)

/-- Concrete AES-GCM collaborator: the ciphertext is the plaintext
followed by a 16-byte tag. -/
def aesEncT : List Nat → List Nat → List Nat → Except String (List Nat) :=
  fun _ _ pt => .ok (pt ++ List.replicate 16 9)

/-- Concrete environment: caller identity me, an SQL backend that answers
every query with the products resultset and fails every execute, and
total deterministic crypto collaborators whose derived keys are at least
12 bytes and whose AES-GCM output appends a 16-byte tag. -/
def envT : Env :=
  ⟨"me", fun _ => .ok "h1", fun _ _ => .ok ⟨fieldsT, rowsT⟩, fun _ _ => .error "exec failure",
    hkdfT, aesEncT⟩

/-- Same collaborators as envT except for a succeeding SQL execute and a
different ambient identity. -/
def envT2 : Env := { envT with sqlExec := fun _ _ => .ok "done", clientId := "other" }

/-- A profile owned by caller me with a stored master key name. -/
def cT : Client := ⟨"db1", dT, "h1", "me", some "mk1"⟩

/-- A profile owned by caller me without a master key reference. -/
def cNoKey : Client := ⟨"db2", dT, "h1", "me", none⟩

/-- A profile stored under id X but owned by a different tenant. -/
def cOther : Client := ⟨"X", dT, "", "other", none⟩

/-- A profile stored under id X owned by caller me. -/
def cMine : Client := ⟨"X", dT, "", "me", none⟩

/-- State holding only the master key mk1. -/
def stT : St := ⟨[], [("mk1", [7])], [], []⟩

/-- Empty state with three randomness tape entries. -/
def st0 : St := ⟨[], [], [[1], [2], [3]], []⟩

/-- State whose registry holds the foreign-owned profile X. -/
def stX : St := ⟨[("ALL", StoredRecord.clientsRec ["X"]), ("X", StoredRecord.clientRec cOther)],
  [], [[5], [6], [7]], []⟩

/-- State whose registry holds profile X owned by the caller with the
same connection details that are added again. -/
def stX5 : St := ⟨[("ALL", StoredRecord.clientsRec ["X"]), ("X", StoredRecord.clientRec cMine)],
  [], [[1], [2], [3]], []⟩

/-- Table encryption request for the products example. -/
def dbtT : DBTable := ⟨"db1", "products", ["name"], "product_id"⟩

/-- Same collaborators as envT except that every SQL query fails, making
the schema probe the first failing step. -/
def envQFail : Env := { envT with sqlQuery := fun _ _ => .error "boom" }

/-- Claim C10: when the aggregate registry record stored under the key
ALL is absent from the ledger table, Clients::load succeeds with an empty
registry, and it returns an error only when a record is present under ALL
but does not deserialize as a registry list. -/
theorem clients_load_registry (st : St) :
    (st.ledger.lookup "ALL" = none → Clients.load st = .ok ⟨[]⟩) ∧
    (∀ e, Clients.load st = .error e →
      ∃ r, st.ledger.lookup "ALL" = some r ∧ ∀ cs, r ≠ StoredRecord.clientsRec cs) := by
  constructor
  · intro h
    simp [Clients.load, h, Clients.new]
  · intro e he
    unfold Clients.load at he
    cases hl : st.ledger.lookup "ALL" with
    | none => rw [hl] at he; cases he
    | some r =>
      rw [hl] at he
      refine ⟨r, rfl, ?_⟩
      intro cs hcs
      subst hcs
      cases he

/-- Witness for C10 at the empty ledger. -/
theorem clients_load_registry_w : Clients.load st0 = .ok ⟨[]⟩ :=
  (clients_load_registry st0).1 (by decide)

/-- Claim C6: Clients::delete on an id absent from the registry id list
returns the not-found error and leaves the registry value and the whole
persisted state (ledger records included) unchanged. -/
theorem delete_absent_id (st : St) (self : Clients) (database_id : String)
    (h : self.clients.contains database_id = false) :
    Clients.delete st self database_id = (.error "Database ID not found", self, st) := by
  have h2 : database_id ∉ self.clients := by simpa using h
  simp [Clients.delete, h2]

/-- Witness for C6: deleting a missing id from an empty registry. -/
theorem delete_absent_id_w :
    Clients.delete st0 ⟨["X"]⟩ "missing" = (.error "Database ID not found", ⟨["X"]⟩, st0) :=
  delete_absent_id st0 ⟨["X"]⟩ "missing" (by decide)

/-- Claim C7: every Connection Session operation (connect, query,
execute) invoked while the ambient caller identity differs from the
stored owning tenant returns the authorization error and returns the
state unchanged, so no SQL collaborator call is logged and no ledger
record is mutated. -/
theorem session_requires_owner (env : Env) (c : Client) (st : St) (sql : String)
    (h : env.clientId ≠ c.client_id) :
    Client.connect env c st = (.error "Client ID mismatch", st) ∧
    Client.query env c st sql = (.error "Client ID mismatch", st) ∧
    Client.execute env c st sql = (.error "Client ID mismatch", st) := by
  refine ⟨?_, ?_, ?_⟩ <;> simp [Client.connect, Client.query, Client.execute, h]

/-- Witness for C7: the owner of profile X is the tenant other, while the
ambient caller of envT is me. -/
theorem session_requires_owner_w :
    Client.connect envT cOther stT = (.error "Client ID mismatch", stT) ∧
    Client.query envT cOther stT "SELECT 1" = (.error "Client ID mismatch", stT) ∧
    Client.execute envT cOther stT "SELECT 1" = (.error "Client ID mismatch", stT) :=
  session_requires_owner envT cOther stT "SELECT 1" (by decide)

/-- Claim C8: the connection string is exactly host and dbname, with the
user segment appended iff the user field is non-empty and then the
password segment iff the password field is non-empty, and connect passes
exactly this string to the SQL connection collaborator. -/
theorem connection_string_format (env : Env) (c : Client) (st : St)
    (h : env.clientId = c.client_id) :
    Client.connection_string c =
      "host=" ++ c.db_input_details.host ++ " dbname=" ++ c.db_input_details.dbname
        ++ (if c.db_input_details.user = "" then "" else " user=" ++ c.db_input_details.user)
        ++ (if c.db_input_details.password = "" then ""
            else " password=" ++ c.db_input_details.password) ∧
    (Client.connect env c st).2.sqlCalls
      = st.sqlCalls ++ [SqlCall.openC (Client.connection_string c)] := by
  constructor
  · simp only [Client.connection_string]
    by_cases hu : c.db_input_details.user = "" <;>
      by_cases hp : c.db_input_details.password = "" <;>
        simp [hu, hp, String.append_assoc]
  · cases henv : env.sqlOpen (Client.connection_string c) <;>
      simp [Client.connect, h, henv]

/-- Witness for C8 at the concrete profile of the scenarios. -/
theorem connection_string_format_w :
    Client.connection_string cT =
      "host=" ++ "db1" ++ " dbname=" ++ "orders"
        ++ (if ("u" : String) = "" then "" else " user=" ++ "u")
        ++ (if ("p" : String) = "" then "" else " password=" ++ "p") ∧
    (Client.connect envT cT stT).2.sqlCalls
      = stT.sqlCalls ++ [SqlCall.openC (Client.connection_string cT)] :=
  connection_string_format envT cT stT (by decide)

/-- Claim C2: the per-cell encryption step is deterministic.  With the
crypto collaborator modelled as a deterministic function, two runs over
the same master key, table, column and plaintext are literally the same
value; moreover the result only depends on the key-derivation and
encryption collaborators, not on the identity, SQL or randomness parts of
the environment, so any two environments agreeing on those two functions
produce byte-identical ciphertext. -/
theorem encryption_deterministic (env1 env2 : Env) (mk : List Nat) (table column : String)
    (v : Value) (hh : env1.hkdf = env2.hkdf) (he : env1.aesEnc = env2.aesEnc) :
    encryptCell env1 mk table column v = encryptCell env2 mk table column v := by
  simp only [encryptCell, derive_aes_gcm_key, derive_iv, hh, he]

/-- Witness for C2: envT and envT2 differ in ambient identity and SQL
behaviour but share the crypto collaborators. -/
theorem encryption_deterministic_w :
    encryptCell envT [7] "products" "name" (Value.str "Laptop")
      = encryptCell envT2 [7] "products" "name" (Value.str "Laptop") :=
  encryption_deterministic envT envT2 [7] "products" "name" (Value.str "Laptop") rfl rfl


/-- Helper: a lookup value encrypted by the query builder agrees with the
same value encrypted as a string cell by the encryption engine, because
both paths derive the same column key and IV and feed the same plaintext
bytes to the cipher. -/
theorem encryptLookupValue_of_encryptCell (env : Env) (mkb : List Nat) (table column : String)
    (s ct : String) (h : encryptCell env mkb table column (Value.str s) = .ok (Value.str ct)) :
    encryptLookupValue env mkb table column s = .ok ct := by
  unfold encryptCell at h
  unfold encryptLookupValue
  dsimp only [get_serde_value_into_bytes] at h
  cases hk : derive_aes_gcm_key env mkb table column with
  | error e =>
    rw [hk] at h
    exact Except.noConfusion h
  | ok key =>
    rw [hk] at h
    dsimp only at h
    cases hiv : derive_iv env mkb column (Value.str s) with
    | error e =>
      rw [hiv] at h
      exact Except.noConfusion h
    | ok iv =>
      rw [hiv] at h
      dsimp only at h
      cases henc : env.aesEnc key iv (strBytes s) with
      | error e =>
        rw [henc] at h
        exact Except.noConfusion h
      | ok ctb =>
        rw [henc] at h
        dsimp only at h
        injection h with h1
        injection h1 with h2
        dsimp only
        rw [henc]
        exact congrArg Except.ok h2

/-- Helper: pointwise lifting of the previous lemma along the value loop
of the query builder. -/
theorem encryptLookupValues_of_forall (env : Env) (mkb : List Nat) (table column : String)
    (values cts : List String)
    (h : List.Forall₂
      (fun s ct => encryptCell env mkb table column (Value.str s) = .ok (Value.str ct))
      values cts) :
    encryptLookupValues env mkb table column values = .ok cts := by
  induction h with
  | nil => rfl
  | cons h1 _ ih =>
    simp only [encryptLookupValues]
    rw [encryptLookupValue_of_encryptCell _ _ _ _ _ _ h1, ih]

/-- Claim C1: for plaintext string values previously processed by the
cell-encryption step of encrypt_columns under the same master key, table
and column, build_encrypted_query performs the identical key and IV
derivation and encryption, and the hex ciphertext it places in the IN
clause is byte-for-byte the ciphertext stored in the table cell. -/
theorem build_encrypted_query_matches (env : Env) (c : Client) (st : St)
    (dbid table column : String) (values cts : List String) (mkn : String) (mkb : List Nat)
    (hmkn : c.master_key_name = some mkn)
    (hkey : st.keys.lookup mkn = some mkb)
    (henc : List.Forall₂
      (fun s ct => encryptCell env mkb table column (Value.str s) = .ok (Value.str ct))
      values cts) :
    Client.build_encrypted_query env c st ⟨dbid, table, column, values⟩ =
      (.ok ("SELECT * FROM " ++ table ++ " WHERE " ++ column ++ " in ("
        ++ String.intercalate "," cts ++ ")"), st) := by
  simp only [Client.build_encrypted_query, hmkn, hkey,
    encryptLookupValues_of_forall env mkb table column values cts henc]

/-- Witness for C1: the ciphertext stored for the Laptop cell is exactly
the ciphertext the query builder places in the IN clause. -/
theorem build_encrypted_query_matches_w :
    Client.build_encrypted_query envT cT stT ⟨"db1", "products", "name", ["Laptop"]⟩ =
      (.ok ("SELECT * FROM " ++ "products" ++ " WHERE " ++ "name" ++ " in ("
        ++ String.intercalate ","
            [hexEncode (List.replicate 12 3 ++ (strBytes "Laptop" ++ List.replicate 16 9))]
        ++ ")"), stT) :=
  build_encrypted_query_matches envT cT stT "db1" "products" "name" ["Laptop"]
    [hexEncode (List.replicate 12 3 ++ (strBytes "Laptop" ++ List.replicate 16 9))]
    "mk1" [7] rfl (by decide)
    (List.Forall₂.cons (by decide) List.Forall₂.nil)

/-- Helper: each byte contributes two hex characters. -/
theorem flatMap_hexByte_length (l : List Nat) : (l.flatMap hexByte).length = 2 * l.length := by
  induction l with
  | nil => rfl
  | cons b t ih =>
    simp only [List.flatMap_cons, List.length_append, ih, hexByte, List.length_cons,
      List.length_nil]
    omega

/-- Helper: a hex encoded byte sequence has twice as many characters. -/
theorem hexEncode_length (l : List Nat) : (hexEncode l).length = 2 * l.length :=
  flatMap_hexByte_length l

/-- Helper: a successfully derived IV has exactly 12 bytes whenever the
key-derivation collaborator outputs at least 12 bytes. -/
theorem derive_iv_length (env : Env) (mkb : List Nat) (column : String) (v : Value)
    (iv : List Nat)
    (hlh : ∀ k i out, env.hkdf k i = .ok out → 12 ≤ out.length)
    (h : derive_iv env mkb column v = .ok iv) : iv.length = 12 := by
  unfold derive_iv at h
  cases hpt : get_serde_value_into_bytes v with
  | error e =>
    rw [hpt] at h
    exact Except.noConfusion h
  | ok canon =>
    rw [hpt] at h
    dsimp only at h
    cases hraw : env.hkdf mkb (strBytes column ++ canon) with
    | error e =>
      rw [hraw] at h
      exact Except.noConfusion h
    | ok raw =>
      rw [hraw] at h
      dsimp only at h
      injection h with h2
      rw [← h2, List.length_take]
      simp only [AES_GCM_IV_SIZE]
      exact Nat.min_eq_left (hlh _ _ _ hraw)

/-- Helper: a successfully encrypted cell is a hex string of length
2 * (12 + plaintext length + 16), provided the key-derivation
collaborator returns at least 12 bytes and the cipher appends a 16-byte
tag. -/
theorem encryptCell_shape (env : Env) (mkb : List Nat) (table column : String) (v v2 : Value)
    (hlh : ∀ k i out, env.hkdf k i = .ok out → 12 ≤ out.length)
    (hle : ∀ k iv pt out, env.aesEnc k iv pt = .ok out → out.length = pt.length + 16)
    (h : encryptCell env mkb table column v = .ok v2) :
    ∃ pt, get_serde_value_into_bytes v = .ok pt ∧
      ∃ s, v2 = Value.str s ∧ s.length = 2 * (12 + pt.length + 16) := by
  unfold encryptCell at h
  cases hpt : get_serde_value_into_bytes v with
  | error e =>
    rw [hpt] at h
    exact Except.noConfusion h
  | ok pt =>
    rw [hpt] at h
    dsimp only at h
    refine ⟨pt, rfl, ?_⟩
    cases hk : derive_aes_gcm_key env mkb table column with
    | error e =>
      rw [hk] at h
      exact Except.noConfusion h
    | ok key =>
      rw [hk] at h
      dsimp only at h
      cases hiv : derive_iv env mkb column v with
      | error e =>
        rw [hiv] at h
        exact Except.noConfusion h
      | ok iv =>
        rw [hiv] at h
        dsimp only at h
        cases henc : env.aesEnc key iv pt with
        | error e =>
          rw [henc] at h
          exact Except.noConfusion h
        | ok ct =>
          rw [henc] at h
          dsimp only at h
          injection h with h1
          refine ⟨hexEncode (iv ++ ct), h1.symm, ?_⟩
          have hivlen : iv.length = 12 := derive_iv_length env mkb column v iv hlh hiv
          have hctlen : ct.length = pt.length + 16 := hle _ _ _ _ henc
          rw [hexEncode_length, List.length_append, hivlen, hctlen]
          omega

/-- Helper: from index one on, the cell loop encrypts every cell into a
hex string of the stated length. -/
theorem processCells_shape (env : Env) (mkb : List Nat) (table : String) (fields : List PgField)
    (hlh : ∀ k i out, env.hkdf k i = .ok out → 12 ≤ out.length)
    (hle : ∀ k iv pt out, env.aesEnc k iv pt = .ok out → out.length = pt.length + 16) :
    ∀ (row : List Value) (idy : Nat) (out : List Value),
      processCells env mkb table fields (idy + 1) row = .ok out →
      List.Forall₂ (fun v v2 => ∃ pt, get_serde_value_into_bytes v = .ok pt ∧
        ∃ s, v2 = Value.str s ∧ s.length = 2 * (12 + pt.length + 16)) row out := by
  intro row
  induction row with
  | nil =>
    intro idy out h
    injection h with h1
    rw [← h1]
    exact List.Forall₂.nil
  | cons v rest ih =>
    intro idy out h
    unfold processCells at h
    cases hf : fields.get? (idy + 1) with
    | none =>
      rw [hf] at h
      exact Except.noConfusion h
    | some f =>
      rw [hf] at h
      dsimp only at h
      cases hc : encryptCell env mkb table f.name v with
      | error e =>
        rw [hc] at h
        exact Except.noConfusion h
      | ok v2 =>
        rw [hc] at h
        dsimp only at h
        cases hrest : processCells env mkb table fields (idy + 2) rest with
        | error e =>
          rw [hrest] at h
          exact Except.noConfusion h
        | ok tl =>
          rw [hrest] at h
          dsimp only at h
          injection h with h1
          rw [← h1]
          exact List.Forall₂.cons
            (encryptCell_shape env mkb table f.name v v2 hlh hle hc)
            (ih (idy + 1) tl hrest)

/-- Helper: starting at index zero, the cell loop keeps the head cell
unchanged and encrypts the tail cells. -/
theorem processCells_zero (env : Env) (mkb : List Nat) (table : String) (fields : List PgField)
    (row out : List Value)
    (hlh : ∀ k i out, env.hkdf k i = .ok out → 12 ≤ out.length)
    (hle : ∀ k iv pt out, env.aesEnc k iv pt = .ok out → out.length = pt.length + 16)
    (h : processCells env mkb table fields 0 row = .ok out) :
    out.head? = row.head? ∧
    List.Forall₂ (fun v v2 => ∃ pt, get_serde_value_into_bytes v = .ok pt ∧
      ∃ s, v2 = Value.str s ∧ s.length = 2 * (12 + pt.length + 16)) row.tail out.tail := by
  cases row with
  | nil =>
    injection h with h1
    rw [← h1]
    exact ⟨rfl, List.Forall₂.nil⟩
  | cons v rest =>
    unfold processCells at h
    cases hrest : processCells env mkb table fields 1 rest with
    | error e =>
      rw [hrest] at h
      exact Except.noConfusion h
    | ok tl =>
      rw [hrest] at h
      dsimp only at h
      injection h with h1
      rw [← h1]
      exact ⟨rfl, processCells_shape env mkb table fields hlh hle rest 0 tl hrest⟩

/-- Claim C3: for every row processed by the row loop of
encrypt_columns, the first cell (the primary-key cell of the selected
row) is left exactly unchanged and every other cell is replaced by a hex
string encoding IV, ciphertext and tag, of length
2 * (12 + plaintext byte length + 16). -/
theorem encrypt_columns_cell_shape (env : Env) (mkb : List Nat) (table : String)
    (fields : List PgField) (rows rows2 : List (List Value))
    (hlh : ∀ k i out, env.hkdf k i = .ok out → 12 ≤ out.length)
    (hle : ∀ k iv pt out, env.aesEnc k iv pt = .ok out → out.length = pt.length + 16)
    (h : processRows env mkb table fields rows = .ok rows2) :
    List.Forall₂ (fun row row2 =>
      row2.head? = row.head? ∧
      List.Forall₂ (fun v v2 => ∃ pt, get_serde_value_into_bytes v = .ok pt ∧
        ∃ s, v2 = Value.str s ∧ s.length = 2 * (12 + pt.length + 16)) row.tail row2.tail)
      rows rows2 := by
  induction rows generalizing rows2 with
  | nil =>
    injection h with h1
    rw [← h1]
    exact List.Forall₂.nil
  | cons row rest ih =>
    unfold processRows at h
    cases hr : processCells env mkb table fields 0 row with
    | error e =>
      rw [hr] at h
      exact Except.noConfusion h
    | ok row2 =>
      rw [hr] at h
      dsimp only at h
      cases hrest : processRows env mkb table fields rest with
      | error e =>
        rw [hrest] at h
        exact Except.noConfusion h
      | ok rest2 =>
        rw [hrest] at h
        dsimp only at h
        injection h with h1
        rw [← h1]
        exact List.Forall₂.cons
          (processCells_zero env mkb table fields row row2 hlh hle hr)
          (ih rest2 hrest)

/-- Witness for C3 on the products scenario row. -/
theorem encrypt_columns_cell_shape_w :
    List.Forall₂ (fun row row2 =>
      row2.head? = row.head? ∧
      List.Forall₂ (fun v v2 => ∃ pt, get_serde_value_into_bytes v = .ok pt ∧
        ∃ s, v2 = Value.str s ∧ s.length = 2 * (12 + pt.length + 16)) row.tail row2.tail)
      rowsT
      [[Value.num 1,
        Value.str (hexEncode (List.replicate 12 3 ++ (strBytes "Laptop" ++ List.replicate 16 9)))]] :=
  encrypt_columns_cell_shape envT [7] "products" fieldsT rowsT
    [[Value.num 1,
      Value.str (hexEncode (List.replicate 12 3 ++ (strBytes "Laptop" ++ List.replicate 16 9)))]]
    (by
      intro k i out hout
      have hout2 : hkdfT k i = .ok out := hout
      simp only [hkdfT] at hout2
      injection hout2 with h1
      rw [← h1]
      simp only [List.length_append, List.length_replicate]
      omega)
    (by
      intro k iv pt out hout
      have hout2 : aesEncT k iv pt = .ok out := hout
      simp only [aesEncT] at hout2
      injection hout2 with h1
      rw [← h1]
      simp [List.length_append, List.length_replicate])
    (by decide)

/-- Helper: a query call never appends an SQL execute call to the log. -/
theorem query_calls_no_exec (env : Env) (c : Client) (st : St) (sql : String) :
    ((Client.query env c st sql).2).sqlCalls.filter SqlCall.isExec
      = st.sqlCalls.filter SqlCall.isExec := by
  unfold Client.query
  by_cases hc : env.clientId = c.client_id
  · rw [if_pos hc]
    cases hq : env.sqlQuery c.opaque_handle sql <;>
      simp [List.filter_append, SqlCall.isExec]
  · rw [if_neg hc]

/-- Helper: the schema probe never appends an SQL execute call. -/
theorem gtp_calls_no_exec (env : Env) (c : Client) (st : St) (table_name : String) :
    ((Client.get_table_properties env c st table_name).2).sqlCalls.filter SqlCall.isExec
      = st.sqlCalls.filter SqlCall.isExec := by
  unfold Client.get_table_properties
  by_cases hc : env.clientId = c.client_id
  · rw [if_pos hc]
    have hq := query_calls_no_exec env c st ("SELECT * FROM " ++ table_name ++ " LIMIT 1")
    cases hres : Client.query env c st ("SELECT * FROM " ++ table_name ++ " LIMIT 1") with
    | mk r st1 =>
      rw [hres] at hq
      cases r with
      | ok response => exact hq
      | error e => exact hq
  · rw [if_neg hc]

/-- Helper: the row-selection query never appends an SQL execute call. -/
theorem gcte_calls_no_exec (env : Env) (c : Client) (st : St) (pk : String) (dbt : DBTable) :
    ((Client.get_columns_to_encrypt env c st pk dbt).2).sqlCalls.filter SqlCall.isExec
      = st.sqlCalls.filter SqlCall.isExec := by
  unfold Client.get_columns_to_encrypt
  by_cases hc : env.clientId = c.client_id
  · rw [if_pos hc]
    exact query_calls_no_exec env c st _
  · rw [if_neg hc]

/-- Counterexample for C4 as stated: in the scenario envT the SQL execute
collaborator rejects every statement, so the execution of the bulk update
statement fails, yet encrypt_columns swallows the failure inside
Client::update and returns success while having issued an execute call;
the claim instead demands an error return on this failure. -/
theorem encrypt_columns_abort_cx :
    (Client.encrypt_columns envT cT dbtT stT).1 = .ok () ∧
    (Client.encrypt_columns envT cT dbtT stT).2.sqlCalls.any SqlCall.isExec = true ∧
    envT.sqlExec "h1" "UPDATE" = .error "exec failure" := by
  refine ⟨by decide, by decide, by decide⟩

/-- Claim C4 as amended: encrypt_columns aborts the current command and
returns an error on the first failure of the schema probe or of any
per-cell key/IV derivation or encryption step, and performs no SQL write
when a per-cell step fails — whenever it returns an error, no SQL
execute call has been issued; a failure in executing the bulk update
statement, however, is logged and swallowed inside Client::update, and
encrypt_columns still returns success (see the counterexample). -/
theorem encrypt_columns_failure_policy :
    (∀ (env : Env) (c : Client) (dbt : DBTable) (st : St) (e : String) (st2 : St),
      Client.encrypt_columns env c dbt st = (.error e, st2) →
      st2.sqlCalls.filter SqlCall.isExec = st.sqlCalls.filter SqlCall.isExec) ∧
    (∀ (env : Env) (c : Client) (dbt : DBTable) (st st1 st2 : St) (fields : List PgField)
      (answer : PostGreResponse) (mkn : String) (mkb : List Nat) (e : String),
      env.clientId = c.client_id →
      Client.get_table_properties env c st dbt.table = (.ok fields, st1) →
      Client.get_columns_to_encrypt env c st1 dbt.primary_key dbt = (.ok answer, st2) →
      c.master_key_name = some mkn →
      st2.keys.lookup mkn = some mkb →
      processRows env mkb dbt.table fields answer.resultset = .error e →
      Client.encrypt_columns env c dbt st = (.error e, st2)) ∧
    (∀ (env : Env) (c : Client) (dbt : DBTable) (st st1 : St) (e : String),
      env.clientId = c.client_id →
      Client.get_table_properties env c st dbt.table = (.error e, st1) →
      Client.encrypt_columns env c dbt st = (.error e, st1)) := by
  refine ⟨?_, ?_, ?_⟩
  · intro env c dbt st e st2 h
    unfold Client.encrypt_columns at h
    by_cases hc : env.clientId = c.client_id
    · rw [if_pos hc] at h
      cases hgtp : Client.get_table_properties env c st dbt.table with
      | mk r1 s1 =>
        have hs1 : s1.sqlCalls.filter SqlCall.isExec = st.sqlCalls.filter SqlCall.isExec := by
          have hg := gtp_calls_no_exec env c st dbt.table
          rw [hgtp] at hg
          exact hg
        rw [hgtp] at h
        cases r1 with
        | error e1 =>
          dsimp only at h
          have h2 : s1 = st2 := congrArg Prod.snd h
          rw [← h2]
          exact hs1
        | ok fields =>
          dsimp only at h
          cases hg2 : Client.get_columns_to_encrypt env c s1 dbt.primary_key dbt with
          | mk r2 s2 =>
            have hs2 : s2.sqlCalls.filter SqlCall.isExec
                = s1.sqlCalls.filter SqlCall.isExec := by
              have hg := gcte_calls_no_exec env c s1 dbt.primary_key dbt
              rw [hg2] at hg
              exact hg
            rw [hg2] at h
            cases r2 with
            | error e2 =>
              dsimp only at h
              have h2 : s2 = st2 := congrArg Prod.snd h
              rw [← h2, hs2]
              exact hs1
            | ok answer =>
              dsimp only at h
              cases hmk : c.master_key_name with
              | none =>
                rw [hmk] at h
                dsimp only at h
                have h2 : s2 = st2 := congrArg Prod.snd h
                rw [← h2, hs2]
                exact hs1
              | some mkn =>
                rw [hmk] at h
                dsimp only at h
                cases hkey : s2.keys.lookup mkn with
                | none =>
                  rw [hkey] at h
                  dsimp only at h
                  have h2 : s2 = st2 := congrArg Prod.snd h
                  rw [← h2, hs2]
                  exact hs1
                | some mkb =>
                  rw [hkey] at h
                  dsimp only at h
                  cases hpr : processRows env mkb dbt.table fields answer.resultset with
                  | error e3 =>
                    rw [hpr] at h
                    dsimp only at h
                    have h2 : s2 = st2 := congrArg Prod.snd h
                    rw [← h2, hs2]
                    exact hs1
                  | ok processed =>
                    rw [hpr] at h
                    dsimp only at h
                    unfold Client.update at h
                    cases hbq : Client.build_update_query processed answer.fields dbt.table with
                    | error e4 =>
                      rw [hbq] at h
                      dsimp only at h
                      have h2 : s2 = st2 := congrArg Prod.snd h
                      rw [← h2, hs2]
                      exact hs1
                    | ok q =>
                      rw [hbq] at h
                      dsimp only at h
                      exact Except.noConfusion (congrArg Prod.fst h)
    · rw [if_neg hc] at h
      have h2 : st = st2 := congrArg Prod.snd h
      rw [← h2]
  · intro env c dbt st st1 st2 fields answer mkn mkb e hc hgtp hg2 hmk hkey hpr
    unfold Client.encrypt_columns
    rw [if_pos hc, hgtp]
    dsimp only
    rw [hg2]
    dsimp only
    rw [hmk]
    dsimp only
    rw [hkey]
    dsimp only
    rw [hpr]
  · intro env c dbt st st1 e hc hgtp
    unfold Client.encrypt_columns
    rw [if_pos hc, hgtp]

/-- Witness for C4 (amended): with a backend whose queries fail, the
schema probe error propagates out of encrypt_columns unchanged. -/
theorem encrypt_columns_failure_policy_w :
    Client.encrypt_columns envQFail cT dbtT st0 =
      (.error "boom", (Client.get_table_properties envQFail cT st0 dbtT.table).2) :=
  encrypt_columns_failure_policy.2.2 envQFail cT dbtT st0
    (Client.get_table_properties envQFail cT st0 dbtT.table).2 "boom" (by decide) (by decide)

/-- Helper: explicit form of Client::new when the randomness tape is
non-empty. -/
theorem client_new_eq (env : Env) (st : St) (d : DBInputDetails) (b1 : List Nat)
    (rest2 : List (List Nat)) (hrng : st.rng = b1 :: rest2) :
    Client.new env st d =
      (⟨hexEncode b1, d, "", env.clientId, none⟩, { st with rng := rest2 }) := by
  unfold Client.new
  rw [hrng]

/-- Helper: explicit form of Client::save_master_key when the tape holds
two entries. -/
theorem client_save_master_key_eq (c : Client) (st : St) (b2 b3 : List Nat)
    (rest : List (List Nat)) (hrng : st.rng = b2 :: b3 :: rest) :
    Client.save_master_key c st =
      .ok ({ c with master_key_name := some (hexEncode b2) },
           { st with rng := rest, keys := (hexEncode b2, b3) :: st.keys }) := by
  unfold Client.save_master_key
  rw [hrng]

/-- Helper: explicit form of Client::save under a matching tenant and a
sufficient randomness tape. -/
theorem client_save_eq (env : Env) (c : Client) (st : St) (b2 b3 : List Nat)
    (rest : List (List Nat)) (hcid : env.clientId = c.client_id)
    (hrng : st.rng = b2 :: b3 :: rest) :
    Client.save env c st =
      .ok ({ c with master_key_name := some (hexEncode b2) },
           { st with
               rng := rest,
               keys := (hexEncode b2, b3) :: st.keys,
               ledger := (c.database_id, StoredRecord.clientRec
                 { c with master_key_name := some (hexEncode b2) }) :: st.ledger }) := by
  unfold Client.save
  rw [if_pos hcid, client_save_master_key_eq c st b2 b3 rest hrng]

/-- Helper: explicit form of Clients::add when no matching profile exists
and the randomness tape supplies three entries. -/
theorem clients_add_fresh_eq (env : Env) (st : St) (self : Clients) (d : DBInputDetails)
    (b1 b2 b3 : List Nat) (rest : List (List Nat))
    (hrng : st.rng = b1 :: b2 :: b3 :: rest)
    (hnone : Clients.exists env st self d = "") :
    Clients.add env st self d =
      (.ok (hexEncode b1),
       ⟨self.clients ++ [hexEncode b1]⟩,
       { ledger := ("ALL", StoredRecord.clientsRec (self.clients ++ [hexEncode b1]))
           :: (hexEncode b1, StoredRecord.clientRec
                ⟨hexEncode b1, d, "", env.clientId, some (hexEncode b2)⟩)
           :: st.ledger,
         keys := (hexEncode b2, b3) :: st.keys,
         rng := rest,
         sqlCalls := st.sqlCalls }) := by
  unfold Clients.add
  simp only [hnone, reduceIte]
  rw [client_new_eq env st d b1 (b2 :: b3 :: rest) hrng]
  dsimp only
  rw [client_save_eq env ⟨hexEncode b1, d, "", env.clientId, none⟩
    { st with rng := b2 :: b3 :: rest } b2 b3 rest rfl rfl]
  dsimp only
  unfold Clients.save
  dsimp only

/-- Counterexample for C5 as stated: the claim quantifies over every
registry state, but in a state that already holds a profile with the
identical field tuple owned by the caller, two add calls both return the
existing id and the registry id list gains zero entries, not exactly
one. -/
theorem clients_add_idempotent_cx :
    (Clients.add envT stX5 ⟨["X"]⟩ dT).1 = .ok "X" ∧
    (Clients.add envT (Clients.add envT stX5 ⟨["X"]⟩ dT).2.2
       (Clients.add envT stX5 ⟨["X"]⟩ dT).2.1 dT).1 = .ok "X" ∧
    ((Clients.add envT (Clients.add envT stX5 ⟨["X"]⟩ dT).2.2
        (Clients.add envT stX5 ⟨["X"]⟩ dT).2.1 dT).2.1).clients = ["X"] ∧
    ¬ (((Clients.add envT (Clients.add envT stX5 ⟨["X"]⟩ dT).2.2
          (Clients.add envT stX5 ⟨["X"]⟩ dT).2.1 dT).2.1).clients.length
        = (⟨["X"]⟩ : Clients).clients.length + 1) := by
  refine ⟨by decide, by decide, by decide, by decide⟩

/-- Claim C5 as amended: for every registry state in which no accessible
profile matches the field tuple, the registry holds no empty id, and the
randomness tape supplies three entries whose first yields a fresh
non-empty id distinct from the aggregate key, calling add twice with the
same host, dbname, user and password returns the same id both times and
the registry id list gains exactly one entry across the two calls. -/
theorem clients_add_idempotent (env : Env) (st : St) (self : Clients) (d : DBInputDetails)
    (b1 b2 b3 : List Nat) (rest : List (List Nat))
    (hrng : st.rng = b1 :: b2 :: b3 :: rest)
    (hne : hexEncode b1 ≠ "")
    (hall : hexEncode b1 ≠ "ALL")
    (hfresh : hexEncode b1 ∉ self.clients)
    (hempty : "" ∉ self.clients)
    (hnone : Clients.exists env st self d = "") :
    (Clients.add env st self d).1 = .ok (hexEncode b1) ∧
    ((Clients.add env st self d).2.1).clients = self.clients ++ [hexEncode b1] ∧
    (Clients.add env (Clients.add env st self d).2.2 (Clients.add env st self d).2.1 d).1
      = .ok (hexEncode b1) ∧
    ((Clients.add env (Clients.add env st self d).2.2
        (Clients.add env st self d).2.1 d).2.1).clients
      = self.clients ++ [hexEncode b1] := by
  have hadd1 := clients_add_fresh_eq env st self d b1 b2 b3 rest hrng hnone
  set c2 : Client := ⟨hexEncode b1, d, "", env.clientId, some (hexEncode b2)⟩ with hc2
  set stP : St :=
    { ledger := ("ALL", StoredRecord.clientsRec (self.clients ++ [hexEncode b1]))
        :: (hexEncode b1, StoredRecord.clientRec c2)
        :: st.ledger,
      keys := (hexEncode b2, b3) :: st.keys,
      rng := rest,
      sqlCalls := st.sqlCalls } with hstP
  have hfind_none : self.clients.find? (clientMatches env st d) = none := by
    cases hf : self.clients.find? (clientMatches env st d) with
    | none => rfl
    | some a =>
      exfalso
      have ha : a ∈ self.clients := List.mem_of_find?_eq_some hf
      have h2 : Clients.exists env st self d = a := by
        unfold Clients.exists
        rw [hf]
        rfl
      rw [hnone] at h2
      exact hempty (h2 ▸ ha)
  have hmatches_st : ∀ x ∈ self.clients, clientMatches env st d x = false := by
    intro x hx
    have := List.find?_eq_none.mp hfind_none x hx
    simpa using this
  have hmatches_stP : ∀ x ∈ self.clients, clientMatches env stP d x = false := by
    intro x hx
    by_cases hxA : x = "ALL"
    · subst hxA
      rw [hstP]
      simp [clientMatches, Client.load, List.lookup]
    · have hx1 : x ≠ hexEncode b1 := fun hh => hfresh (hh ▸ hx)
      have e1 : (x == "ALL") = false := beq_eq_false_iff_ne.mpr hxA
      have e2 : (x == hexEncode b1) = false := beq_eq_false_iff_ne.mpr hx1
      have hlk : stP.ledger.lookup x = st.ledger.lookup x := by
        rw [hstP]
        simp [List.lookup, e1, e2]
      have heq : clientMatches env stP d x = clientMatches env st d x := by
        unfold clientMatches Client.load
        rw [hlk]
      rw [heq]
      exact hmatches_st x hx
  have hm1 : clientMatches env stP d (hexEncode b1) = true := by
    have e1 : (hexEncode b1 == "ALL") = false := beq_eq_false_iff_ne.mpr hall
    rw [hstP]
    simp [clientMatches, Client.load, List.lookup, e1, hc2]
  have hfind2 : (self.clients ++ [hexEncode b1]).find? (clientMatches env stP d)
      = some (hexEncode b1) := by
    have hnone2 : self.clients.find? (clientMatches env stP d) = none := by
      rw [List.find?_eq_none]
      intro x hx
      simp [hmatches_stP x hx]
    rw [List.find?_append, hnone2]
    simp [List.find?, hm1]
  have hex2 : Clients.exists env stP ⟨self.clients ++ [hexEncode b1]⟩ d = hexEncode b1 := by
    unfold Clients.exists
    rw [hfind2]
    rfl
  have hadd2 : Clients.add env stP ⟨self.clients ++ [hexEncode b1]⟩ d
      = (.ok (hexEncode b1), ⟨self.clients ++ [hexEncode b1]⟩, stP) := by
    unfold Clients.add
    simp only [hex2]
    rw [if_neg hne]
  refine ⟨?_, ?_, ?_, ?_⟩
  · rw [hadd1]
  · rw [hadd1]
  · rw [hadd1]
    dsimp only
    rw [hadd2]
  · rw [hadd1]
    dsimp only
    rw [hadd2]

/-- Witness for C5 (amended) on the empty registry with a three-entry
randomness tape. -/
theorem clients_add_idempotent_w :
    (Clients.add envT st0 ⟨[]⟩ dT).1 = .ok (hexEncode [1]) ∧
    ((Clients.add envT st0 ⟨[]⟩ dT).2.1).clients
      = (⟨[]⟩ : Clients).clients ++ [hexEncode [1]] ∧
    (Clients.add envT (Clients.add envT st0 ⟨[]⟩ dT).2.2
       (Clients.add envT st0 ⟨[]⟩ dT).2.1 dT).1 = .ok (hexEncode [1]) ∧
    ((Clients.add envT (Clients.add envT st0 ⟨[]⟩ dT).2.2
        (Clients.add envT st0 ⟨[]⟩ dT).2.1 dT).2.1).clients
      = (⟨[]⟩ : Clients).clients ++ [hexEncode [1]] :=
  clients_add_idempotent envT st0 ⟨[]⟩ dT [1] [2] [3] [] rfl (by decide) (by decide)
    (by decide) (by decide) (by decide)

/-- Claim C9: profile deduplication is tenant-scoped.  Whenever
Clients::exists returns a non-empty id, the profile stored under that id
loads under the current identity, so its stored client_id equals the
caller and its fields equal the probe; consequently, in the concrete
registry stX holding profile X with identical connection fields but a
different owning tenant, exists misses and add mints and returns a fresh
id instead of X. -/
theorem exists_tenant_scoped :
    (∀ (env : Env) (st : St) (self : Clients) (d : DBInputDetails) (id : String),
      Clients.exists env st self d = id → id ≠ "" →
      (Client.load env st id).map (fun c => (c.client_id, c.db_input_details))
        = .ok (env.clientId, d)) ∧
    (Clients.exists envT stX ⟨["X"]⟩ dT = "" ∧
     (Clients.add envT stX ⟨["X"]⟩ dT).1 = .ok (hexEncode [5]) ∧
     hexEncode [5] ≠ "X" ∧
     ((Clients.add envT stX ⟨["X"]⟩ dT).2.1).clients = ["X", hexEncode [5]]) := by
  constructor
  · intro env st self d id hex hne2
    unfold Clients.exists at hex
    cases hf : self.clients.find? (clientMatches env st d) with
    | none =>
      rw [hf] at hex
      exact absurd hex.symm hne2
    | some a =>
      rw [hf] at hex
      have ha : a = id := hex
      subst ha
      have hp := List.find?_some hf
      unfold clientMatches at hp
      cases hl : Client.load env st a with
      | error e =>
        rw [hl] at hp
        exact Bool.noConfusion hp
      | ok c =>
        rw [hl] at hp
        dsimp only at hp
        have hcd : c.db_input_details = d := by
          exact eq_of_beq hp
        have hcid : env.clientId = c.client_id := by
          unfold Client.load at hl
          cases hlk : st.ledger.lookup a with
          | none =>
            rw [hlk] at hl
            exact Except.noConfusion hl
          | some r =>
            rw [hlk] at hl
            cases r with
            | clientsRec cs =>
              dsimp only at hl
              exact Except.noConfusion hl
            | corrupt =>
              dsimp only at hl
              exact Except.noConfusion hl
            | clientRec cr =>
              dsimp only at hl
              by_cases hcc : env.clientId = cr.client_id
              · rw [if_pos hcc] at hl
                injection hl with h2
                rw [← h2]
                exact hcc
              · rw [if_neg hcc] at hl
                exact Except.noConfusion hl
        simp [Except.map, hcd, hcid]
  · refine ⟨by decide, by decide, by decide, by decide⟩

/-- Witness for C9: in the registry stX5 the profile under id X is owned
by the caller and matches the probed fields, so exists returns X and the
loaded record carries the caller identity and the fields. -/
theorem exists_tenant_scoped_w :
    (Client.load envT stX5 "X").map (fun c => (c.client_id, c.db_input_details))
      = .ok (envT.clientId, dT) :=
  exists_tenant_scoped.1 envT stX5 ⟨["X"]⟩ dT "X" (by decide) (by decide)
